import Mathlib

/-!
Verification development for the `pg` list-query helper (Go package `pg`).

The Go sources are shallowly embedded here:
* the squirrel select-statement builder is modelled at its interface
  boundary (`SelectBuilder`, `SelectBuilder.toSql`) with the PostgreSQL
  dollar placeholder format that `pg.SQL` selects;
* `OffsetPagination` / `SeekPagination` (pagination.go) are records over
  `Int` (Go `int64`), with the mutating Go methods written as explicit
  state-passing functions;
* `ListOption` (exec.go) is a tagged variant mirroring the Go interface
  and its categorization by dynamic type;
* `List` (list.go) is `pgList`, parametrised by a database engine oracle
  and returning, besides the Go results, the trace of executed queries.
-/

/-- A positional SQL argument, as carried by squirrel where-parts. -/
inductive SqlArg where
  | int (n : Int)
  | str (s : String)
deriving DecidableEq, Repr

/-- Shallow model of `squirrel.SelectBuilder` at the interface this
repository uses: projected columns are plain strings, where-parts are
rendered sql fragments (with `?` placeholders) paired with their
positional arguments. -/
structure SelectBuilder where
  columns : List String
  fromPart : String
  joins : List String
  whereParts : List (String × List SqlArg)
  groupBys : List String
  orderBys : List String
  limit : Option Nat
  offset : Option Nat
deriving DecidableEq, Repr

/-- `sq.Dollar` placeholder rewriting: each `?` becomes `$n` with `n`
counting up from 1, scanning the whole rendered statement. -/
def dollarAux : Nat → List Char → List Char
  | _, [] => []
  | n, c :: rest =>
      if c = '?' then '$' :: (Nat.repr n).toList ++ dollarAux (n + 1) rest
      else c :: dollarAux n rest

/-- Apply the dollar placeholder format to a rendered statement. -/
def dollarize (s : String) : String :=
  ⟨dollarAux 1 s.toList⟩

/-- The rendered text of every clause after the projected columns:
FROM, JOINs, WHERE, GROUP BY, ORDER BY, LIMIT, OFFSET.  This part of the
rendering does not depend on `columns`. -/
def SelectBuilder.renderTail (q : SelectBuilder) : String :=
  " FROM " ++ q.fromPart
  ++ (q.joins.foldl (fun acc j => acc ++ " " ++ j) "")
  ++ (if q.whereParts.isEmpty then ""
      else " WHERE " ++ String.intercalate " AND " (q.whereParts.map Prod.fst))
  ++ (if q.groupBys.isEmpty then ""
      else " GROUP BY " ++ String.intercalate ", " q.groupBys)
  ++ (if q.orderBys.isEmpty then ""
      else " ORDER BY " ++ String.intercalate ", " q.orderBys)
  ++ (match q.limit with | none => "" | some n => " LIMIT " ++ Nat.repr n)
  ++ (match q.offset with | none => "" | some n => " OFFSET " ++ Nat.repr n)

/-- The positional argument list of the rendered statement: the
where-part arguments, in order.  (Projected columns are plain strings
and carry no arguments.) -/
def SelectBuilder.renderArgs (q : SelectBuilder) : List SqlArg :=
  (q.whereParts.map Prod.snd).flatten

/-- `ToSql()`: render the statement text (with dollar placeholders) and
its positional argument list. -/
def SelectBuilder.toSql (q : SelectBuilder) : String × List SqlArg :=
  (dollarize ("SELECT " ++ String.intercalate ", " q.columns ++ q.renderTail),
   q.renderArgs)

/-- `Limit(n)` on the builder. -/
def SelectBuilder.limitClause (q : SelectBuilder) (n : Nat) : SelectBuilder :=
  { q with limit := some n }

/-- `Offset(n)` on the builder. -/
def SelectBuilder.offsetClause (q : SelectBuilder) (n : Nat) : SelectBuilder :=
  { q with offset := some n }

/-- `toCountQuery` (list.go): `builder.Delete(query, "Columns")` empties
the projected-column list, then `.Columns("COUNT(*)")` appends the single
count column; every other clause is untouched. -/
def toCountQuery (query : SelectBuilder) : SelectBuilder :=
  { query with columns := ["COUNT(*)"] }

/-- `OffsetPagination` (pagination.go).  Go `int64` fields are embedded
as `Int`; the unexported `defaultPerPage` is an ordinary field. -/
structure OffsetPagination where
  Page : Int
  PerPage : Int
  CountPages : Int
  CountRecords : Int
  defaultPerPage : Int
deriving DecidableEq, Repr

/-- Exact integer ceiling division: the reference value for the spec's
total-pages property (`total-pages = ceil(total-records / page size)`).
The source computes the value through float64 instead; see
`floatCeilDiv`. -/
def ceilDivInt (a b : Int) : Int :=
  (a + b - 1) / b

/-- Bit length of a natural number (`0` for `0`).  Fuelled structural
recursion; fuel 200 covers far beyond the `int64` range of the source. -/
def bitlenF : Nat → Nat → Nat
  | 0, _ => 0
  | fuel + 1, n => if n = 0 then 0 else bitlenF fuel (n / 2) + 1

/-- Bit length with the standing fuel. -/
def bitlen (n : Nat) : Nat :=
  bitlenF 200 n

/-- Round `N / D` to the nearest integer, ties to even: the IEEE-754
binary64 round-to-nearest-even rule applied to a scaled significand. -/
def rne (N D : Nat) : Nat :=
  let n := N / D
  let r := N % D
  if 2 * r < D then n
  else if D < 2 * r then n + 1
  else if n % 2 = 0 then n else n + 1

/-- Smallest `m` with `b ≤ a * 2 ^ m` (minimal by construction when the
fuel suffices): the negated binary exponent of a quotient below 1. -/
def smallestDoubling : Nat → Nat → Nat → Nat
  | 0, _, _ => 0
  | fuel + 1, a, b => if b ≤ a then 0 else smallestDoubling fuel (2 * a) b + 1

/-- Go `float64(a)` of a nonnegative `int64`: exact when the value fits
in 53 bits, otherwise rounded to nearest-even on the grid `2 ^ (e - 52)`
where `e = bitlen - 1` is the binary exponent. -/
def flInt (a : Int) : Int :=
  let n := a.toNat
  let l := bitlen n
  if l ≤ 53 then a
  else ((rne n (2 ^ (l - 53)) * 2 ^ (l - 53) : Nat) : Int)

/-- `int64(math.Ceil(x / y))` for two nonnegative binary64 values given
as the integers `na`, `nb`: IEEE division rounds the true quotient to 53
significant bits on the grid `2 ^ (e - 52)` (`e` the quotient's binary
exponent `⌊log2 (na / nb)⌋`), `math.Ceil` is exact on binary64, and the
integral result converts back exactly. -/
def ceilFlQuotN (na nb : Nat) : Nat :=
  if na = 0 then 0
  else if nb ≤ na ∧ 53 < bitlen (na / nb) then
    let sh := bitlen (na / nb) - 53
    rne na (nb * 2 ^ sh) * 2 ^ sh
  else
    let sh := if nb ≤ na then 53 - bitlen (na / nb) else 52 + smallestDoubling 200 na nb
    (rne (na * 2 ^ sh) nb + 2 ^ sh - 1) / 2 ^ sh

/-- The source's `int64(math.Ceil(float64(a) / float64(b)))`
(pagination.go, `normalize`): convert both `int64`s to binary64
(round to nearest-even), divide with IEEE correct rounding, ceil,
convert back.  Every step is modelled exactly over the integers. -/
def floatCeilDiv (a b : Int) : Int :=
  (ceilFlQuotN (flInt a).toNat (flInt b).toNat : Nat)

/-- `normalize` (pagination.go): coerce `defaultPerPage`, `Page`,
`PerPage`, `CountRecords` into range, then recompute `CountPages` as
`int64(math.Ceil(float64(CountRecords) / float64(PerPage)))`. -/
def OffsetPagination.normalize (p : OffsetPagination) : OffsetPagination :=
  let dpp := if p.defaultPerPage ≤ 0 then 20 else p.defaultPerPage
  let page := if p.Page ≤ 0 then 1 else p.Page
  let perPage := if p.PerPage ≤ 0 then dpp else p.PerPage
  let cr := if p.CountRecords ≤ 0 then 0 else p.CountRecords
  { Page := page
    PerPage := perPage
    CountPages := floatCeilDiv cr perPage
    CountRecords := cr
    defaultPerPage := dpp }

/-- `NewOffsetPagination(defaultPerPage)`: zero value plus the default,
normalized. -/
def NewOffsetPagination (defaultPerPage : Int) : OffsetPagination :=
  (OffsetPagination.mk 0 0 0 0 defaultPerPage).normalize

/-- `Limit()`: normalizes the receiver in place, then returns `PerPage`.
The Go method mutates through the pointer receiver, so the result is the
returned value paired with the updated receiver. -/
def OffsetPagination.Limit (p : OffsetPagination) : Int × OffsetPagination :=
  let q := p.normalize
  (q.PerPage, q)

/-- `Offset()`: normalizes, then returns `(Page - 1) * PerPage`. -/
def OffsetPagination.Offset (p : OffsetPagination) : Int × OffsetPagination :=
  let q := p.normalize
  ((q.Page - 1) * q.PerPage, q)

/-- `CurrentPage()`: normalizes, then returns `Page`. -/
def OffsetPagination.CurrentPage (p : OffsetPagination) : Int × OffsetPagination :=
  let q := p.normalize
  (q.Page, q)

/-- `PageSize()`: normalizes, then returns `PerPage`. -/
def OffsetPagination.PageSize (p : OffsetPagination) : Int × OffsetPagination :=
  let q := p.normalize
  (q.PerPage, q)

/-- `SetCountRecords(total)`: write `CountRecords`, then normalize. -/
def OffsetPagination.SetCountRecords (p : OffsetPagination) (total : Int) :
    OffsetPagination :=
  { p with CountRecords := total }.normalize

/-- `SetDefaultPerPage(n)`: write the fallback, then normalize. -/
def OffsetPagination.SetDefaultPerPage (p : OffsetPagination) (n : Int) :
    OffsetPagination :=
  { p with defaultPerPage := n }.normalize

/-- An uppercase hexadecimal digit, for percent-escaping. -/
def hexDigitUpper (n : Nat) : Char :=
  if n < 10 then Char.ofNat (48 + n) else Char.ofNat (55 + n)

/-- Escape one byte the way Go `url.QueryEscape` does for query
components: ASCII alphanumerics and `-`, `_`, `.`, `~` are kept, a space
becomes `+`, every other byte becomes `%XX`. -/
def escapeQueryByte (b : UInt8) : List Char :=
  let n := b.toNat
  if (65 ≤ n ∧ n ≤ 90) ∨ (97 ≤ n ∧ n ≤ 122) ∨ (48 ≤ n ∧ n ≤ 57)
      ∨ n = 45 ∨ n = 95 ∨ n = 46 ∨ n = 126 then [Char.ofNat n]
  else if n = 32 then ['+']
  else ['%', hexDigitUpper (n / 16), hexDigitUpper (n % 16)]

/-- Go `url.QueryEscape`, applied byte-wise to the UTF-8 encoding. -/
def queryEscape (s : String) : String :=
  ⟨(s.toUTF8.toList.map escapeQueryByte).flatten⟩

/-- Shallow model of `net/url.URL` at the boundary this repository uses:
a path and the parsed query as key/value pairs (`theURL.Query()`). -/
structure ModelURL where
  path : String
  query : List (String × String)

/-- `url.Values.Set(key, value)`: drop every pair for `key` and record
the single new binding. -/
def setQueryValue (q : List (String × String)) (key value : String) :
    List (String × String) :=
  q.filter (fun kv => kv.1 ≠ key) ++ [(key, value)]

/-- Stable insertion of a pair into a key-sorted list. -/
def insertByKey (kv : String × String) :
    List (String × String) → List (String × String)
  | [] => [kv]
  | x :: xs => if kv.1 < x.1 then kv :: x :: xs else x :: insertByKey kv xs

/-- Stable sort by key, modelling the sorted-key iteration of
`url.Values.Encode`. -/
def sortByKey : List (String × String) → List (String × String)
  | [] => []
  | x :: xs => insertByKey x (sortByKey xs)

/-- `url.Values.Encode()`: keys sorted, each pair escaped and joined. -/
def encodeQuery (q : List (String × String)) : String :=
  String.intercalate "&"
    ((sortByKey q).map (fun kv => queryEscape kv.1 ++ "=" ++ queryEscape kv.2))

/-- One Link-header entry, as formatted by
`fmt.Sprintf("<%s?%s>; rel=%q", theURL.Path, link.Encode(), rel)` with
the `page` query parameter rewritten. -/
def renderLinkEntry (u : ModelURL) (rel : String) (page : Int) : String :=
  "<" ++ u.path ++ "?" ++ encodeQuery (setQueryValue u.query "page" (toString page))
    ++ ">; rel=\"" ++ rel ++ "\""

/-- The relation entries of `OffsetPagination.LinkHeader`, in emission
order: `first` always (page 1); `prev` when `Page > 1` (page `Page-1`);
`next` when `Page + 1 < CountPages` (page `Page+1`); `last` always
(page `CountPages`). -/
def OffsetPagination.linkRels (p : OffsetPagination) : List (String × Int) :=
  [("first", 1)]
  ++ (if 1 < p.Page then [("prev", p.Page - 1)] else [])
  ++ (if p.Page + 1 < p.CountPages then [("next", p.Page + 1)] else [])
  ++ [("last", p.CountPages)]

/-- `LinkHeader(theURL)`: render each relation entry against the request
URL and comma-join them. -/
def OffsetPagination.LinkHeader (p : OffsetPagination) (u : ModelURL) : String :=
  String.intercalate ", " (p.linkRels.map (fun e => renderLinkEntry u e.1 e.2))

/-- `SeekPagination` (pagination.go): unexported fields `limit`,
`cursor`, `defaultLimit`. -/
structure SeekPagination where
  limit : Int
  cursor : String
  defaultLimit : Int
deriving DecidableEq, Repr

/-- `NewSeekPagination(defaultLimit)`: a non-positive default falls back
to 10; the `limit` and `cursor` fields keep their zero values and are
NOT normalized by the constructor. -/
def NewSeekPagination (defaultLimit : Int) : SeekPagination :=
  { limit := 0
    cursor := ""
    defaultLimit := if defaultLimit ≤ 0 then 10 else defaultLimit }

/-- `SeekPagination.normalize`: coerce a non-positive `limit` to the
default. -/
def SeekPagination.normalize (p : SeekPagination) : SeekPagination :=
  if p.limit ≤ 0 then { p with limit := p.defaultLimit } else p

/-- `SetLimit(newLimit)`: write the limit, then normalize. -/
def SeekPagination.SetLimit (p : SeekPagination) (newLimit : Int) : SeekPagination :=
  { p with limit := newLimit }.normalize

/-- `Limit()` (pagination.go): returns the stored `limit` field directly,
with no normalization. -/
def SeekPagination.Limit (p : SeekPagination) : Int :=
  p.limit

/-- `SetCursor(newCursor)`. -/
def SeekPagination.SetCursor (p : SeekPagination) (newCursor : String) : SeekPagination :=
  { p with cursor := newCursor }

/-- `Cursor()`. -/
def SeekPagination.Cursor (p : SeekPagination) : String :=
  p.cursor

/-- Go `uint64(x)` on an `int64` value: two's-complement wraparound. -/
def toUInt64Nat (x : Int) : Nat :=
  (x % (2 ^ 64 : Int)).toNat

/-- `ListOption` (exec.go), as a tagged variant over its three dynamic
types: `ListOptionFunc` (and any other plain `Apply` implementation),
`*withSortByOption`, and `*withOffsetPaginationOption`.  The pagination
variant carries the snapshot the option points to. -/
inductive ListOption where
  | func (f : SelectBuilder → SelectBuilder)
  | sortBy (columnName direction : String)
  | offsetPagination (page : OffsetPagination)

/-- `Apply` on each variant.  The pagination variant is
`sb.Limit(uint64(page.Limit())).Offset(uint64(page.Offset()))`, where
`Limit()` then `Offset()` each normalize the pointed-to snapshot. -/
def ListOption.Apply : ListOption → SelectBuilder → SelectBuilder
  | .func f, sb => f sb
  | .sortBy columnName direction, sb =>
      { sb with orderBys := sb.orderBys ++ [columnName ++ " " ++ direction] }
  | .offsetPagination page, sb =>
      let lim := page.Limit
      let off := lim.2.Offset
      (sb.limitClause (toUInt64Nat lim.1)).offsetClause (toUInt64Nat off.1)

/-- `WithSortBy(columnName, direction)`. -/
def WithSortBy (columnName direction : String) : ListOption :=
  .sortBy columnName direction

/-- `WithOffsetPagination(pagination)`: allocates a fresh
`OffsetPagination` and copies the argument's value into it, so the
option holds a snapshot.  (The pointer-level copy is modelled separately
for the frame property; at the value level the snapshot is the value.) -/
def WithOffsetPagination (pagination : OffsetPagination) : ListOption :=
  .offsetPagination pagination

/-- `IsPaginationOption`: dynamic type test for
`*withOffsetPaginationOption`. -/
def IsPaginationOption : ListOption → Bool
  | .offsetPagination _ => true
  | _ => false

/-- `IsSortingOption`: dynamic type test for `*withSortByOption`. -/
def IsSortingOption : ListOption → Bool
  | .sortBy _ _ => true
  | _ => false

/-- `CategorizedListOptions(opts...)`: one pass over the options,
appending each to the paging, sorting, or (catch-all) filtering list. -/
def CategorizedListOptions (opts : List ListOption) :
    List ListOption × List ListOption × List ListOption :=
  opts.foldl
    (fun acc opt =>
      if IsPaginationOption opt then (acc.1, acc.2.1 ++ [opt], acc.2.2)
      else if IsSortingOption opt then (acc.1, acc.2.1, acc.2.2 ++ [opt])
      else (acc.1 ++ [opt], acc.2.1, acc.2.2))
    ([], [], [])

/-- One executed database round-trip, as observed by `List`. -/
inductive TraceItem where
  | countExec (sql : String) (args : List SqlArg)
  | dataExec (sql : String) (args : List SqlArg)
deriving DecidableEq, Repr

/-- The database engine at its interface boundary: the count round-trip
(`DB().QueryRow(...).Scan(&total)`) and the data round-trip
(`pgxscan.Select`), each fallible. -/
structure DBEngine (ρ : Type) where
  queryRowInt : String → List SqlArg → Except String Int
  selectRows : String → List SqlArg → Except String ρ

/-- What `List` returns: the destination value, the pagination pointer
(`none` embeds Go `nil`), the error, plus the trace of executed
round-trips. -/
structure ListResult (ρ : Type) where
  vs : ρ
  pagination : Option OffsetPagination
  err : Option String
  trace : List TraceItem

/-- The paging options `List` proceeds with: the categorized paging
options, or a synthesized `WithOffsetPagination(NewOffsetPagination(20))`
when none was supplied. -/
def selectedPagingOpts (opts : List ListOption) : List ListOption :=
  if (CategorizedListOptions opts).2.1.isEmpty then
    [WithOffsetPagination (NewOffsetPagination 20)]
  else (CategorizedListOptions opts).2.1

/-- The snapshot inside the first paging option
(`pagingOpts[0].(*withOffsetPaginationOption).page`).  The fallback arm
is unreachable when the list comes from `selectedPagingOpts`: Go would
panic on the failed type assertion. -/
def headPaginationSnapshot : List ListOption → OffsetPagination
  | .offsetPagination p :: _ => p
  | _ => NewOffsetPagination 20

/-- The pagination object `List` works with for a given option list. -/
def selectedPagination (opts : List ListOption) : OffsetPagination :=
  headPaginationSnapshot (selectedPagingOpts opts)

/-- The base statement after the filtering options are applied, in
supplied order. -/
def filteredQuery (query : SelectBuilder) (opts : List ListOption) : SelectBuilder :=
  (CategorizedListOptions opts).1.foldl (fun q o => o.Apply q) query

/-- The rendered count statement `List` executes. -/
def countStatement (query : SelectBuilder) (opts : List ListOption) :
    String × List SqlArg :=
  (toCountQuery (filteredQuery query opts)).toSql

/-- `List` (list.go), with the database engine injected and the executed
round-trips returned as a trace.  Statement assembly (`ToSql`) is total
in this model, so the two Go assembly-error returns cannot fire. -/
def pgList {ρ : Type} (db : DBEngine ρ) (vs : ρ) (query : SelectBuilder)
    (opts : List ListOption) : ListResult ρ :=
  let sortingOpts := (CategorizedListOptions opts).2.2
  let pagingOpts := selectedPagingOpts opts
  if 1 < pagingOpts.length then
    { vs := vs, pagination := none
      err := some "only one pagination option is allowed", trace := [] }
  else
    let countSql := countStatement query opts
    match db.queryRowInt countSql.1 countSql.2 with
    | .error e =>
        { vs := vs, pagination := none
          err := some ("count records: " ++ e)
          trace := [.countExec countSql.1 countSql.2] }
    | .ok total =>
        let pagination := (selectedPagination opts).SetCountRecords total
        if pagination.CountRecords = 0 ∨ pagination.CountPages < pagination.Page then
          { vs := vs, pagination := some pagination, err := none
            trace := [.countExec countSql.1 countSql.2] }
        else
          let query1 := sortingOpts.foldl (fun q o => o.Apply q) (filteredQuery query opts)
          let query2 := (ListOption.offsetPagination pagination).Apply query1
          let dataSql := query2.toSql
          match db.selectRows dataSql.1 dataSql.2 with
          | .error e =>
              { vs := vs, pagination := some pagination, err := some e
                trace := [.countExec countSql.1 countSql.2,
                          .dataExec dataSql.1 dataSql.2] }
          | .ok vs2 =>
              { vs := vs2, pagination := some pagination, err := none
                trace := [.countExec countSql.1 countSql.2,
                          .dataExec dataSql.1 dataSql.2] }

/-- A minimal heap of `OffsetPagination` cells, to state the Go
pointer-level facts: `WithOffsetPagination` allocates a fresh cell and
the option's `Apply` reads (and normalizes) through its own pointer. -/
structure PagHeap where
  next : Nat
  mem : Nat → OffsetPagination

/-- Read a cell. -/
def PagHeap.read (h : PagHeap) (p : Nat) : OffsetPagination :=
  h.mem p

/-- Write a cell. -/
def PagHeap.write (h : PagHeap) (p : Nat) (v : OffsetPagination) : PagHeap :=
  { h with mem := fun q => if q = p then v else h.mem q }

/-- Allocate a fresh cell holding `v`; returns the new heap and the
fresh pointer. -/
def PagHeap.alloc (h : PagHeap) (v : OffsetPagination) : PagHeap × Nat :=
  ({ next := h.next + 1
     mem := fun q => if q = h.next then v else h.mem q }, h.next)

/-- `WithOffsetPagination(pagination)` at the pointer level:
`page := new(OffsetPagination); *page = *pagination` — allocate a fresh
cell and copy the argument's value into it.  The returned pointer is the
one the built option holds. -/
def WithOffsetPaginationPtr (h : PagHeap) (pagination : Nat) : PagHeap × Nat :=
  h.alloc (h.read pagination)

/-- `withOffsetPaginationOption.Apply` at the pointer level:
`sb.Limit(uint64(o.page.Limit())).Offset(uint64(o.page.Offset()))`,
where `Limit()` and `Offset()` each normalize the pointed-to cell in
place. -/
def applyPagingPtr (h : PagHeap) (page : Nat) (sb : SelectBuilder) :
    PagHeap × SelectBuilder :=
  let lim := (h.read page).Limit
  let h1 := h.write page lim.2
  let off := (h1.read page).Offset
  let h2 := h1.write page off.2
  (h2, (sb.limitClause (toUInt64Nat lim.1)).offsetClause (toUInt64Nat off.1))

theorem OffsetPagination.normalize_idem (p : OffsetPagination) :
    p.normalize.normalize = p.normalize := by
  unfold OffsetPagination.normalize
  split_ifs <;> simp_all

theorem OffsetPagination.normalize_PerPage_pos (p : OffsetPagination) :
    0 < p.normalize.PerPage := by
  unfold OffsetPagination.normalize
  split_ifs <;> simp_all

theorem OffsetPagination.normalize_CountRecords_nonneg (p : OffsetPagination) :
    0 ≤ p.normalize.CountRecords := by
  unfold OffsetPagination.normalize
  split_ifs <;> simp_all <;> omega

theorem OffsetPagination.normalize_CountPages_eq (p : OffsetPagination) :
    p.normalize.CountPages = floatCeilDiv p.normalize.CountRecords p.normalize.PerPage := by
  unfold OffsetPagination.normalize
  split_ifs <;> rfl

/-- C8: calling any accessor (`Limit`, `Offset`, `CurrentPage`,
`PageSize`) twice without an intervening mutation yields the identical
value-and-state result, because `normalize` is idempotent: normalizing
an already-normalized state changes nothing. -/
theorem accessors_idempotent (p : OffsetPagination) :
    p.Limit.2.Limit = p.Limit ∧
    p.Offset.2.Offset = p.Offset ∧
    p.CurrentPage.2.CurrentPage = p.CurrentPage ∧
    p.PageSize.2.PageSize = p.PageSize ∧
    p.normalize.normalize = p.normalize := by
  refine ⟨?_, ?_, ?_, ?_, p.normalize_idem⟩ <;>
    simp [OffsetPagination.Limit, OffsetPagination.Offset,
      OffsetPagination.CurrentPage, OffsetPagination.PageSize,
      OffsetPagination.normalize_idem]

/-- C7: for every state, including externally mutated ones with
non-positive page or page size, the offset returned by `Offset()` equals
`(CurrentPage() - 1) * PageSize()`, with the three accessors called in
sequence on the same (pointer-mutated) object: each accessor forces
normalization before returning. -/
theorem offset_eq_page_mul_size (p : OffsetPagination) :
    p.Offset.1 = (p.Offset.2.CurrentPage.1 - 1) * p.Offset.2.CurrentPage.2.PageSize.1 := by
  simp [OffsetPagination.Offset, OffsetPagination.CurrentPage,
    OffsetPagination.PageSize, OffsetPagination.normalize_idem]

theorem ceilDivInt_eq_ceil (a b : Int) (hb : 0 < b) :
    (⌈(a : ℚ) / (b : ℚ)⌉ : Int) = ceilDivInt a b := by
  unfold ceilDivInt
  rw [Int.ceil_eq_iff]
  have h := Int.ediv_add_emod (a + b - 1) b
  have h2 := Int.emod_nonneg (a + b - 1) (by omega : b ≠ 0)
  have h3 := Int.emod_lt_of_pos (a + b - 1) hb
  constructor
  · rw [lt_div_iff₀ (by exact_mod_cast hb)]
    have : ((a + b - 1) / b - 1) * b < a := by nlinarith
    exact_mod_cast this
  · rw [div_le_iff₀ (by exact_mod_cast hb)]
    have : a ≤ ((a + b - 1) / b) * b := by nlinarith
    exact_mod_cast this

theorem bitlenF_spec : ∀ (fuel n : Nat), n < 2 ^ fuel →
    n < 2 ^ bitlenF fuel n ∧ (0 < n → 2 ^ (bitlenF fuel n - 1) ≤ n) := by
  intro fuel
  induction fuel with
  | zero =>
      intro n h
      simp only [bitlenF, pow_zero] at h ⊢
      omega
  | succ fuel ih =>
      intro n h
      by_cases h0 : n = 0
      · subst h0
        simp [bitlenF]
      · have hh : n / 2 < 2 ^ fuel := by
          rw [pow_succ] at h
          omega
        obtain ⟨ih1, ih2⟩ := ih (n / 2) hh
        have hb : bitlenF (fuel + 1) n = bitlenF fuel (n / 2) + 1 := by
          simp [bitlenF, h0]
        rw [hb]
        constructor
        · rw [pow_succ]
          omega
        · intro _
          simp only [Nat.add_sub_cancel]
          rcases Nat.eq_zero_or_pos (n / 2) with h1 | h1
          · have hz : bitlenF fuel (n / 2) = 0 := by
              rw [h1]
              cases fuel <;> simp [bitlenF]
            rw [hz, pow_zero]
            omega
          · have h2 := ih2 h1
            have hl : 1 ≤ bitlenF fuel (n / 2) := by
              rcases Nat.eq_zero_or_pos (bitlenF fuel (n / 2)) with he | he
              · rw [he, pow_zero] at ih1
                omega
              · exact he
            have hp : (2 : Nat) ^ bitlenF fuel (n / 2) =
                2 ^ (bitlenF fuel (n / 2) - 1) * 2 := by
              rw [← pow_succ]
              congr 1
              omega
            rw [hp]
            omega

theorem bitlen_zero : bitlen 0 = 0 := by
  decide

theorem bitlen_lt (n : Nat) (h : n < 2 ^ 200) : n < 2 ^ bitlen n :=
  (bitlenF_spec 200 n h).1

theorem bitlen_lower (n : Nat) (h0 : 0 < n) (h : n < 2 ^ 200) :
    2 ^ (bitlen n - 1) ≤ n :=
  (bitlenF_spec 200 n h).2 h0

theorem bitlen_le (n k : Nat) (hk : k ≤ 200) (h : n < 2 ^ k) : bitlen n ≤ k := by
  rcases Nat.eq_zero_or_pos n with rfl | h0
  · rw [bitlen_zero]
    exact Nat.zero_le k
  · by_contra hc
    push_neg at hc
    have h200 : n < 2 ^ 200 := lt_of_lt_of_le h (Nat.pow_le_pow_right (by norm_num) hk)
    have hlow := bitlen_lower n h0 h200
    have hmono : (2 : Nat) ^ k ≤ 2 ^ (bitlen n - 1) :=
      Nat.pow_le_pow_right (by norm_num) (by omega)
    omega

theorem bitlen_pos (n : Nat) (h0 : 0 < n) (h : n < 2 ^ 200) : 1 ≤ bitlen n := by
  rcases Nat.eq_zero_or_pos (bitlen n) with he | he
  · have := bitlen_lt n h
    rw [he, pow_zero] at this
    omega
  · exact he

theorem smallestDoubling_spec : ∀ (fuel a b : Nat), b ≤ a * 2 ^ fuel →
    b ≤ a * 2 ^ smallestDoubling fuel a b := by
  intro fuel
  induction fuel with
  | zero =>
      intro a b h
      simp only [smallestDoubling]
      exact h
  | succ fuel ih =>
      intro a b h
      by_cases hba : b ≤ a
      · simp [smallestDoubling, hba]
      · have h2 : b ≤ 2 * a * 2 ^ fuel := by
          rw [pow_succ] at h
          calc b ≤ a * (2 ^ fuel * 2) := h
            _ = 2 * a * 2 ^ fuel := by ring
        have h3 := ih (2 * a) b h2
        have hs : smallestDoubling (fuel + 1) a b = smallestDoubling fuel (2 * a) b + 1 := by
          simp [smallestDoubling, hba]
        rw [hs, pow_succ]
        calc b ≤ 2 * a * 2 ^ smallestDoubling fuel (2 * a) b := h3
          _ = a * (2 ^ smallestDoubling fuel (2 * a) b * 2) := by ring

theorem rne_le (N D : Nat) : rne N D ≤ N / D + 1 := by
  simp only [rne]
  split_ifs <;> omega

theorem rne_dvd (N D : Nat) (hD : 0 < D) (h : D ∣ N) : rne N D = N / D := by
  obtain ⟨c, rfl⟩ := h
  simp only [rne, Nat.mul_mod_right]
  simp [hD]

theorem rne_half (N D : Nat) (hD : 0 < D) : 2 * N ≤ 2 * D * rne N D + D := by
  have hdm := Nat.div_add_mod N D
  have hlt : N % D < D := Nat.mod_lt _ hD
  simp only [rne]
  split_ifs <;> nlinarith [hdm, hlt]

theorem ceilFlQuotN_exact (a b : Nat) (ha : a < 2 ^ 53) (hb : 0 < b)
    (hbb : b < 2 ^ 53) : ceilFlQuotN a b = (a + b - 1) / b := by
  rcases Nat.eq_zero_or_pos a with rfl | ha0
  · have h1 : ceilFlQuotN 0 b = 0 := by simp [ceilFlQuotN]
    have h2 : (0 + b - 1) / b = 0 := Nat.div_eq_of_lt (by omega)
    rw [h1, h2]
  · have hane : a ≠ 0 := by omega
    have hq : a / b < 2 ^ 53 := lt_of_le_of_lt (Nat.div_le_self a b) ha
    have hbl : bitlen (a / b) ≤ 53 := bitlen_le _ 53 (by norm_num) hq
    have hcond : ¬(b ≤ a ∧ 53 < bitlen (a / b)) := by
      rintro ⟨_, hgt⟩
      omega
    simp only [ceilFlQuotN, if_neg hane, if_neg hcond]
    set sh := (if b ≤ a then 53 - bitlen (a / b) else 52 + smallestDoubling 200 a b)
      with hshdef
    set S := 2 ^ sh with hS
    have hS0 : 0 < S := by positivity
    have hb2S : b < 2 * S := by
      rcases le_or_lt b a with hba | hba
      · have hql : 0 < a / b := Nat.div_pos hba hb
        have h200 : a / b < 2 ^ 200 := lt_trans hq (by norm_num)
        have hl1 : 1 ≤ bitlen (a / b) := bitlen_pos _ hql h200
        have hlow := bitlen_lower _ hql h200
        have h1 : b * 2 ^ (bitlen (a / b) - 1) ≤ a := by
          calc b * 2 ^ (bitlen (a / b) - 1) ≤ b * (a / b) :=
                Nat.mul_le_mul (Nat.le_refl b) hlow
            _ = (a / b) * b := by ring
            _ ≤ a := Nat.div_mul_le_self a b
        have hsh_eq : sh = 53 - bitlen (a / b) := by rw [hshdef, if_pos hba]
        have hpow : 2 * S * 2 ^ (bitlen (a / b) - 1) = 2 ^ 53 := by
          rw [hS]
          calc 2 * 2 ^ sh * 2 ^ (bitlen (a / b) - 1)
              = 2 ^ (1 + sh + (bitlen (a / b) - 1)) := by
                rw [pow_add, pow_add, pow_one]
            _ = 2 ^ 53 := by
                congr 1
                omega
        by_contra hcon
        push_neg at hcon
        have hge : 2 ^ 53 ≤ b * 2 ^ (bitlen (a / b) - 1) := by
          calc (2 : Nat) ^ 53 = 2 * S * 2 ^ (bitlen (a / b) - 1) := hpow.symm
            _ ≤ b * 2 ^ (bitlen (a / b) - 1) :=
                Nat.mul_le_mul hcon (Nat.le_refl _)
        omega
      · have hb200 : b ≤ a * 2 ^ 200 := by
          calc b ≤ 2 ^ 53 := le_of_lt hbb
            _ ≤ 2 ^ 200 := Nat.pow_le_pow_right (by norm_num) (by norm_num)
            _ ≤ a * 2 ^ 200 := Nat.le_mul_of_pos_left _ ha0
        have hm := smallestDoubling_spec 200 a b hb200
        have hsh_eq : sh = 52 + smallestDoubling 200 a b := by
          rw [hshdef, if_neg (not_le.mpr hba)]
        have hstep : (2 : Nat) ^ 53 * 2 ^ smallestDoubling 200 a b = 2 * S := by
          rw [hS, hsh_eq]
          calc (2 : Nat) ^ 53 * 2 ^ smallestDoubling 200 a b
              = 2 ^ (53 + smallestDoubling 200 a b) := by rw [pow_add]
            _ = 2 ^ (1 + (52 + smallestDoubling 200 a b)) := by
                congr 1
                omega
            _ = 2 * 2 ^ (52 + smallestDoubling 200 a b) := by
                rw [pow_add, pow_one]
        calc b ≤ a * 2 ^ smallestDoubling 200 a b := hm
          _ < 2 ^ 53 * 2 ^ smallestDoubling 200 a b :=
              mul_lt_mul_of_pos_right ha (by positivity)
          _ = 2 * S := hstep
    have hKpos : 1 ≤ (a + b - 1) / b := by
      rw [Nat.one_le_div_iff hb]
      omega
    obtain ⟨k, hk⟩ : ∃ k, (a + b - 1) / b = k + 1 := ⟨(a + b - 1) / b - 1, by omega⟩
    rw [hk]
    have hdm := Nat.div_add_mod (a + b - 1) b
    rw [hk] at hdm
    have hmod : (a + b - 1) % b < b := Nat.mod_lt _ hb
    have hK1 : a ≤ b * (k + 1) := by
      have hdm2 := hdm
      generalize hP : b * (k + 1) = P at hdm2 ⊢
      omega
    have hK2 : b * k + 1 ≤ a := by
      have hdm2 := hdm
      have hexp : b * (k + 1) = b * k + b := by ring
      rw [hexp] at hdm2
      generalize hP : b * k = P at hdm2
      omega
    have hU : rne (a * S) b ≤ (k + 1) * S := by
      by_cases hdvd : b ∣ a * S
      · rw [rne_dvd _ _ hb hdvd]
        have h1 : a * S ≤ b * ((k + 1) * S) := by
          calc a * S ≤ (b * (k + 1)) * S := Nat.mul_le_mul hK1 (Nat.le_refl S)
            _ = b * ((k + 1) * S) := by ring
        calc (a * S) / b ≤ (b * ((k + 1) * S)) / b := Nat.div_le_div_right h1
          _ = (k + 1) * S := Nat.mul_div_cancel_left _ hb
      · have hlt : a < b * (k + 1) := by
          rcases lt_or_eq_of_le hK1 with h | h
          · exact h
          · exact absurd ⟨(k + 1) * S, by rw [h]; ring⟩ hdvd
        have h2 : a * S < b * ((k + 1) * S) := by
          calc a * S < (b * (k + 1)) * S := mul_lt_mul_of_pos_right hlt hS0
            _ = b * ((k + 1) * S) := by ring
        have h3 : (a * S) / b < (k + 1) * S := Nat.div_lt_of_lt_mul h2
        have h4 := rne_le (a * S) b
        omega
    have hL : k * S + 1 ≤ rne (a * S) b := by
      have h1 := rne_half (a * S) b hb
      have h2 : (b * k + 1) * S ≤ a * S := Nat.mul_le_mul hK2 (Nat.le_refl S)
      have h3 : b * (k * S) < b * rne (a * S) b := by nlinarith [h1, h2, hb2S]
      have h4 := Nat.lt_of_mul_lt_mul_left h3
      omega
    have hks : (k + 1) * S = k * S + S := by ring
    have hfin1 : (k + 1) * S ≤ rne (a * S) b + S - 1 := by
      rw [hks]
      generalize hq1 : k * S = Q at hL ⊢
      omega
    have hfin2 : rne (a * S) b + S - 1 < (k + 1 + 1) * S := by
      have h5 : (k + 1 + 1) * S = (k + 1) * S + S := by ring
      rw [h5]
      generalize hq1 : (k + 1) * S = Q at hU ⊢
      omega
    exact Nat.div_eq_of_lt_le hfin1 hfin2

theorem flInt_eq_self (a : Int) (h0 : 0 ≤ a) (h : a < 2 ^ 53) : flInt a = a := by
  have hpI : (2 : Int) ^ 53 = 9007199254740992 := by norm_num
  have hpN : (2 : Nat) ^ 53 = 9007199254740992 := by norm_num
  have hn : a.toNat < 2 ^ 53 := by
    rw [hpI] at h
    rw [hpN]
    omega
  simp only [flInt]
  rw [if_pos (bitlen_le _ 53 (by norm_num) hn)]

theorem floatCeilDiv_exact (a b : Int) (h0 : 0 ≤ a) (ha : a < 2 ^ 53)
    (hb : 0 < b) (hbb : b < 2 ^ 53) : floatCeilDiv a b = ceilDivInt a b := by
  have hpI : (2 : Int) ^ 53 = 9007199254740992 := by norm_num
  have hpN : (2 : Nat) ^ 53 = 9007199254740992 := by norm_num
  have haN : a.toNat < 2 ^ 53 := by
    rw [hpI] at ha
    rw [hpN]
    omega
  have hbN : 0 < b.toNat := by omega
  have hbN2 : b.toNat < 2 ^ 53 := by
    rw [hpI] at hbb
    rw [hpN]
    omega
  unfold floatCeilDiv
  rw [flInt_eq_self a h0 ha, flInt_eq_self b (le_of_lt hb) hbb]
  rw [ceilFlQuotN_exact a.toNat b.toNat haN hbN hbN2]
  unfold ceilDivInt
  have hcast : ((a.toNat + b.toNat - 1 : Nat) : Int) = a + b - 1 := by omega
  have hbcast : ((b.toNat : Nat) : Int) = b := by omega
  rw [Int.natCast_div, hcast, hbcast]

/-- C6 (amended): for every state whose normalized `CountRecords` and
`PerPage` lie below `2 ^ 53` — the range on which the source's float64
pipeline is exact — the accessor-forced normalization leaves
`CountPages` equal to the ceiling of `CountRecords / PerPage` (the page
size), and `CountPages` is `0` whenever `CountRecords` is `0`. -/
theorem countPages_eq_ceil (p : OffsetPagination)
    (hcr : p.normalize.CountRecords < 2 ^ 53)
    (hpp : p.normalize.PerPage < 2 ^ 53) :
    p.normalize.CountPages =
      ⌈(p.normalize.CountRecords : ℚ) / (p.normalize.PerPage : ℚ)⌉ ∧
    (p.normalize.CountRecords = 0 → p.normalize.CountPages = 0) := by
  constructor
  · rw [p.normalize_CountPages_eq,
      floatCeilDiv_exact _ _ p.normalize_CountRecords_nonneg hcr
        p.normalize_PerPage_pos hpp]
    exact (ceilDivInt_eq_ceil _ _ p.normalize_PerPage_pos).symm
  · intro h
    rw [p.normalize_CountPages_eq, h]
    rfl

/-- Witness for `countPages_eq_ceil`: 45 records at page size 20 give
exactly ⌈3 pages⌉. -/
theorem countPages_eq_ceil_witness :
    (OffsetPagination.mk 3 0 0 45 20).normalize.CountRecords < 2 ^ 53 ∧
    (OffsetPagination.mk 3 0 0 45 20).normalize.PerPage < 2 ^ 53 ∧
    (OffsetPagination.mk 3 0 0 45 20).normalize.CountPages =
      ⌈((OffsetPagination.mk 3 0 0 45 20).normalize.CountRecords : ℚ) /
        ((OffsetPagination.mk 3 0 0 45 20).normalize.PerPage : ℚ)⌉ :=
  ⟨by decide, by decide,
   (countPages_eq_ceil (OffsetPagination.mk 3 0 0 45 20) (by decide) (by decide)).1⟩

/-- C6 counterexample: at `CountRecords = 2 ^ 53 + 1` with `PerPage = 1`
the float64 conversion rounds the record count to `2 ^ 53` (ties to
even), so the code stores `CountPages = 2 ^ 53` while the exact ceiling
is `2 ^ 53 + 1`: the claim as stated fails on this reachable state. -/
theorem countPages_float_cex :
    (OffsetPagination.mk 1 1 0 (2 ^ 53 + 1) 20).normalize.CountPages ≠
      ⌈((OffsetPagination.mk 1 1 0 (2 ^ 53 + 1) 20).normalize.CountRecords : ℚ) /
        ((OffsetPagination.mk 1 1 0 (2 ^ 53 + 1) 20).normalize.PerPage : ℚ)⌉ := by
  have h1 : (OffsetPagination.mk 1 1 0 (2 ^ 53 + 1) 20).normalize.CountPages
      = 2 ^ 53 := by decide
  have h2 : (OffsetPagination.mk 1 1 0 (2 ^ 53 + 1) 20).normalize.CountRecords
      = 2 ^ 53 + 1 := by decide
  have h3 : (OffsetPagination.mk 1 1 0 (2 ^ 53 + 1) 20).normalize.PerPage = 1 := by
    decide
  rw [h1, h2, h3]
  intro hcon
  rw [Int.cast_one, div_one, Int.ceil_intCast] at hcon
  exact absurd hcon (by norm_num)

/-- C4: for every pagination state the Link header carries a
`rel="first"` entry with page 1 and a `rel="last"` entry with page
`CountPages`; it carries `rel="prev"` (page `Page - 1`) exactly when
`Page > 1`, and `rel="next"` (page `Page + 1`) exactly when
`Page + 1 < CountPages` (strict less-than). -/
theorem linkHeader_rel_entries (p : OffsetPagination) :
    ("first", (1 : Int)) ∈ p.linkRels ∧
    ("last", p.CountPages) ∈ p.linkRels ∧
    (("prev", p.Page - 1) ∈ p.linkRels ↔ 1 < p.Page) ∧
    (("next", p.Page + 1) ∈ p.linkRels ↔ p.Page + 1 < p.CountPages) := by
  unfold OffsetPagination.linkRels
  split_ifs with h1 h2 h2 <;> simp_all

/-- C5 (code bug): `NewSeekPagination(10)` leaves the stored limit at
its zero value and `Limit()` returns it raw, so the very first access
yields `0`, not the positive default `10` that the fallback invariant
(and `Limit`'s own documentation, "returns a valid limit (>0) number")
promises.  Only `SetLimit` runs the fallback. -/
theorem seekPagination_fresh_limit_bug :
    (NewSeekPagination 10).Limit = 0 ∧
    (NewSeekPagination 10).defaultLimit = 10 ∧
    ¬ 0 < (NewSeekPagination 10).Limit ∧
    ((NewSeekPagination 10).SetLimit 0).Limit = 10 := by
  decide

/-- C1: whenever the count round-trip returns a total that normalizes to
zero records, or the (normalized) requested page exceeds the computed
`CountPages`, `List` returns right after the count: the destination is
the caller's value unmodified, the pagination is the now-normalized
snapshot, there is no error, and the trace holds the count round-trip
only — no data query is assembled or executed. -/
theorem pgList_short_circuit {ρ : Type} (db : DBEngine ρ) (vs : ρ)
    (query : SelectBuilder) (opts : List ListOption) (total : Int)
    (hone : ¬ 1 < (selectedPagingOpts opts).length)
    (hcount : db.queryRowInt (countStatement query opts).1
      (countStatement query opts).2 = .ok total)
    (hshort : ((selectedPagination opts).SetCountRecords total).CountRecords = 0 ∨
      ((selectedPagination opts).SetCountRecords total).CountPages <
        ((selectedPagination opts).SetCountRecords total).Page) :
    pgList db vs query opts =
      { vs := vs
        pagination := some ((selectedPagination opts).SetCountRecords total)
        err := none
        trace := [TraceItem.countExec (countStatement query opts).1
          (countStatement query opts).2] } := by
  unfold pgList
  rw [if_neg hone]
  simp only [hcount]
  rw [if_pos hshort]

/-- A small concrete base statement, `SQL.Select("*").From("users")`. -/
def demoQuery : SelectBuilder :=
  { columns := ["*"]
    fromPart := "users"
    joins := []
    whereParts := []
    groupBys := []
    orderBys := []
    limit := none
    offset := none }

/-- A stand-in engine whose count round-trip always reports 0 rows. -/
def demoDB : DBEngine (List Int) :=
  { queryRowInt := fun _ _ => .ok 0
    selectRows := fun _ _ => .ok [] }

/-- Witness for `pgList_short_circuit`: no options, count 0 — the call
returns the unmodified empty destination, zero-record pagination, and a
single count round-trip in the trace. -/
theorem pgList_short_circuit_witness :
    (¬ 1 < (selectedPagingOpts ([] : List ListOption)).length) ∧
    (((selectedPagination ([] : List ListOption)).SetCountRecords 0).CountRecords = 0 ∨
      ((selectedPagination ([] : List ListOption)).SetCountRecords 0).CountPages <
        ((selectedPagination ([] : List ListOption)).SetCountRecords 0).Page) ∧
    pgList demoDB ([] : List Int) demoQuery [] =
      { vs := []
        pagination := some ((selectedPagination ([] : List ListOption)).SetCountRecords 0)
        err := none
        trace := [TraceItem.countExec (countStatement demoQuery []).1
          (countStatement demoQuery []).2] } :=
  ⟨by decide, by decide,
   pgList_short_circuit demoDB [] demoQuery [] 0 (by decide) rfl (by decide)⟩

/-- C3: when the supplied options hold more than one paging option,
`List` fails immediately with the configuration error: the destination
is returned unchanged, the pagination is nil, and the trace is empty —
neither the count query nor the data query was executed. -/
theorem pgList_multi_paging_config_error {ρ : Type} (db : DBEngine ρ) (vs : ρ)
    (query : SelectBuilder) (opts : List ListOption)
    (h : 1 < (CategorizedListOptions opts).2.1.length) :
    pgList db vs query opts =
      { vs := vs
        pagination := none
        err := some "only one pagination option is allowed"
        trace := [] } := by
  have hne : ((CategorizedListOptions opts).2.1).isEmpty = false := by
    rcases hl : (CategorizedListOptions opts).2.1 with _ | ⟨a, t⟩
    · rw [hl] at h
      simp at h
    · rfl
  have hsel : selectedPagingOpts opts = (CategorizedListOptions opts).2.1 := by
    unfold selectedPagingOpts
    rw [hne]
    rfl
  unfold pgList
  rw [if_pos (by rw [hsel]; exact h)]

/-- Witness for `pgList_multi_paging_config_error`: two paging options
supplied, the configuration error comes back with an empty trace. -/
theorem pgList_multi_paging_config_error_witness :
    1 < (CategorizedListOptions
      [WithOffsetPagination (NewOffsetPagination 20),
       WithOffsetPagination (NewOffsetPagination 5)]).2.1.length ∧
    pgList demoDB ([] : List Int) demoQuery
      [WithOffsetPagination (NewOffsetPagination 20),
       WithOffsetPagination (NewOffsetPagination 5)] =
      { vs := []
        pagination := none
        err := some "only one pagination option is allowed"
        trace := [] } :=
  ⟨by decide,
   pgList_multi_paging_config_error demoDB [] demoQuery
     [WithOffsetPagination (NewOffsetPagination 20),
      WithOffsetPagination (NewOffsetPagination 5)] (by decide)⟩

theorem categorized_foldl_general (opts : List ListOption)
    (acc : List ListOption × List ListOption × List ListOption) :
    opts.foldl
      (fun acc opt =>
        if IsPaginationOption opt then (acc.1, acc.2.1 ++ [opt], acc.2.2)
        else if IsSortingOption opt then (acc.1, acc.2.1, acc.2.2 ++ [opt])
        else (acc.1 ++ [opt], acc.2.1, acc.2.2))
      acc =
      (acc.1 ++ opts.filter (fun o => !IsPaginationOption o && !IsSortingOption o),
       acc.2.1 ++ opts.filter (fun o => IsPaginationOption o),
       acc.2.2 ++ opts.filter (fun o => !IsPaginationOption o && IsSortingOption o)) := by
  induction opts generalizing acc with
  | nil => simp
  | cons o rest ih =>
      by_cases hp : IsPaginationOption o
      · simp [hp, ih]
      · by_cases hs : IsSortingOption o
        · simp [hp, hs, ih]
        · simp [hp, hs, ih]

theorem categorizedListOptions_eq_filter (opts : List ListOption) :
    CategorizedListOptions opts =
      (opts.filter (fun o => !IsPaginationOption o && !IsSortingOption o),
       opts.filter (fun o => IsPaginationOption o),
       opts.filter (fun o => !IsPaginationOption o && IsSortingOption o)) := by
  unfold CategorizedListOptions
  rw [categorized_foldl_general]
  simp

/-- C10: categorization is an exhaustive partition with filtering as the
catch-all.  The three returned lists are exactly the order-preserving
filters of the input by the two dynamic type tests (an option lands in
exactly one list, since the tests are mutually exclusive); any
`ListOptionFunc` fails both tests and is filtering; and whenever the
call proceeds past the configuration check, the count round-trip `List`
issues is built from the statement with exactly the filtering options
applied, so they affect the reported total. -/
theorem categorization_partition (opts : List ListOption) :
    (CategorizedListOptions opts).1 =
      opts.filter (fun o => !IsPaginationOption o && !IsSortingOption o) ∧
    (CategorizedListOptions opts).2.1 =
      opts.filter (fun o => IsPaginationOption o) ∧
    (CategorizedListOptions opts).2.2 =
      opts.filter (fun o => !IsPaginationOption o && IsSortingOption o) ∧
    (∀ o : ListOption, ¬(IsPaginationOption o = true ∧ IsSortingOption o = true)) ∧
    (∀ f : SelectBuilder → SelectBuilder,
      IsPaginationOption (ListOption.func f) = false ∧
      IsSortingOption (ListOption.func f) = false) ∧
    (∀ {ρ : Type} (db : DBEngine ρ) (vs : ρ) (query : SelectBuilder),
      ¬ 1 < (selectedPagingOpts opts).length →
      (pgList db vs query opts).trace.head? =
        some (TraceItem.countExec
          (toCountQuery ((CategorizedListOptions opts).1.foldl
            (fun q o => o.Apply q) query)).toSql.1
          (toCountQuery ((CategorizedListOptions opts).1.foldl
            (fun q o => o.Apply q) query)).toSql.2)) := by
  refine ⟨?_, ?_, ?_, ?_, ?_, ?_⟩
  · rw [categorizedListOptions_eq_filter]
  · rw [categorizedListOptions_eq_filter]
  · rw [categorizedListOptions_eq_filter]
  · intro o ⟨hp, hs⟩
    cases o <;> simp_all [IsPaginationOption, IsSortingOption]
  · intro f
    exact ⟨rfl, rfl⟩
  · intro ρ db vs query hone
    unfold pgList
    rw [if_neg hone]
    cases hdb : db.queryRowInt (countStatement query opts).1 (countStatement query opts).2 with
    | error e =>
        simp only [hdb]
        rfl
    | ok total =>
        simp only [hdb]
        split
        · rfl
        · split <;> rfl

/-- A demo option list: a caller-supplied filtering function, a sorting
option, and a paging option. -/
def demoOpts : List ListOption :=
  [ListOption.func (fun sb =>
     { sb with whereParts := sb.whereParts ++ [("age > ?", [SqlArg.int 18])] }),
   WithSortBy "name" "asc",
   WithOffsetPagination (NewOffsetPagination 20)]

/-- Witness for `categorization_partition`: on `demoOpts` the
configuration check passes and the count round-trip is built from the
filter-applied statement. -/
theorem categorization_partition_witness :
    (¬ 1 < (selectedPagingOpts demoOpts).length) ∧
    (pgList demoDB ([] : List Int) demoQuery demoOpts).trace.head? =
      some (TraceItem.countExec
        (toCountQuery ((CategorizedListOptions demoOpts).1.foldl
          (fun q o => o.Apply q) demoQuery)).toSql.1
        (toCountQuery ((CategorizedListOptions demoOpts).1.foldl
          (fun q o => o.Apply q) demoQuery)).toSql.2) :=
  ⟨by decide,
   (categorization_partition demoOpts).2.2.2.2.2 demoDB [] demoQuery (by decide)⟩

/-- C9: the paging option snapshots the pagination at construction
time.  For a valid pointer `p`, `WithOffsetPagination` allocates a fresh
cell, so any later mutation `f` written through `p` (a `SetCountRecords`
or a raw field write) leaves the statement produced by applying the
already-built option unchanged. -/
theorem paging_option_snapshot (h : PagHeap) (p : Nat)
    (f : OffsetPagination → OffsetPagination) (sb : SelectBuilder)
    (hp : p < h.next) :
    (applyPagingPtr
        ((WithOffsetPaginationPtr h p).1.write p
          (f ((WithOffsetPaginationPtr h p).1.read p)))
        (WithOffsetPaginationPtr h p).2 sb).2 =
      (applyPagingPtr (WithOffsetPaginationPtr h p).1
        (WithOffsetPaginationPtr h p).2 sb).2 := by
  have hne : h.next ≠ p := Nat.ne_of_gt hp
  simp [WithOffsetPaginationPtr, PagHeap.alloc, PagHeap.read, PagHeap.write,
    applyPagingPtr, hne]

/-- Witness for `paging_option_snapshot`: one live cell, mutated by a
`SetCountRecords(100)` after the option was built. -/
theorem paging_option_snapshot_witness :
    0 < (PagHeap.mk 1 (fun _ => NewOffsetPagination 20)).next ∧
    (applyPagingPtr
        ((WithOffsetPaginationPtr (PagHeap.mk 1 (fun _ => NewOffsetPagination 20)) 0).1.write 0
          ((fun q => q.SetCountRecords 100)
            ((WithOffsetPaginationPtr (PagHeap.mk 1 (fun _ => NewOffsetPagination 20)) 0).1.read 0)))
        (WithOffsetPaginationPtr (PagHeap.mk 1 (fun _ => NewOffsetPagination 20)) 0).2 demoQuery).2 =
      (applyPagingPtr
        (WithOffsetPaginationPtr (PagHeap.mk 1 (fun _ => NewOffsetPagination 20)) 0).1
        (WithOffsetPaginationPtr (PagHeap.mk 1 (fun _ => NewOffsetPagination 20)) 0).2 demoQuery).2 :=
  ⟨by decide,
   paging_option_snapshot (PagHeap.mk 1 (fun _ => NewOffsetPagination 20)) 0
     (fun q => q.SetCountRecords 100) demoQuery (by decide)⟩

theorem dollarAux_append (s t : List Char) (n : Nat) (hs : '?' ∉ s) :
    dollarAux n (s ++ t) = s ++ dollarAux n t := by
  induction s generalizing n with
  | nil => simp
  | cons c cs ih =>
      have hc : c ≠ '?' := by
        intro e
        exact hs (e ▸ List.mem_cons_self c cs)
      have hcs : '?' ∉ cs := fun m => hs (List.mem_cons_of_mem c m)
      simp [dollarAux, hc, ih _ hcs]

theorem string_mk_append (a : String) (l : List Char) :
    (⟨a.data ++ l⟩ : String) = a ++ ⟨l⟩ :=
  rfl

/-- The clause text after the projection, with the dollar placeholder
numbering started at 1 (the numbering it receives when the projection
itself holds no placeholder). -/
def dollarTail (q : SelectBuilder) : String :=
  ⟨dollarAux 1 q.renderTail.toList⟩

theorem toSql_decomp (q : SelectBuilder)
    (hq : '?' ∉ ("SELECT " ++ String.intercalate ", " q.columns).toList) :
    q.toSql.1 = ("SELECT " ++ String.intercalate ", " q.columns) ++ dollarTail q := by
  unfold SelectBuilder.toSql dollarize dollarTail
  simp only [String.toList] at hq ⊢
  rw [show ("SELECT " ++ String.intercalate ", " q.columns ++ q.renderTail).data
      = ("SELECT " ++ String.intercalate ", " q.columns).data ++ q.renderTail.data from
    String.data_append _ _]
  rw [dollarAux_append _ _ _ hq]
  exact string_mk_append _ _

/-- C2 (amended): provided the rendered projection list contains no
placeholder character `?`, the derived count statement selects
`COUNT(*)` and keeps every other clause and the rendered positional
argument list identical to the input's: both statements render as their
projection followed by the very same clause text `dollarTail q`, which
does not depend on the projected columns (one column, `*`, or several
all give the same count statement text and arguments). -/
theorem toCountQuery_preserves_clauses (q : SelectBuilder)
    (hq : '?' ∉ (String.intercalate ", " q.columns).toList) :
    (toCountQuery q).toSql.2 = q.toSql.2 ∧
    (toCountQuery q).columns = ["COUNT(*)"] ∧
    (toCountQuery q).renderTail = q.renderTail ∧
    (toCountQuery q).toSql.1 = "SELECT COUNT(*)" ++ dollarTail q ∧
    q.toSql.1 = ("SELECT " ++ String.intercalate ", " q.columns) ++ dollarTail q := by
  refine ⟨rfl, rfl, rfl, ?_, ?_⟩
  · have hcq : '?' ∉ ("SELECT " ++ String.intercalate ", " ["COUNT(*)"]).toList := by
      decide
    have h := toSql_decomp (toCountQuery q) hcq
    rw [h]
    rfl
  · refine toSql_decomp q ?_
    intro hm
    rw [String.toList] at hm
    rw [String.data_append] at hm
    rcases List.mem_append.mp hm with h | h
    · exact absurd h (by decide)
    · exact hq h

/-- Drop everything up to and including the first occurrence of
`" FROM "`: the rendered statement's clause text after the projection. -/
def clauseTailAux : List Char → List Char
  | [] => []
  | c :: cs =>
      if (" FROM ".toList).isPrefixOf (c :: cs) then (c :: cs).drop 6
      else clauseTailAux cs

/-- `clauseTail` of a rendered statement: the text from after
`" FROM "` on. -/
def clauseTail (s : String) : String :=
  ⟨clauseTailAux s.toList⟩

/-- A statement whose projected column itself contains a `?`. -/
def cexQuery : SelectBuilder :=
  { columns := ["COALESCE(x, ?)"]
    fromPart := "t"
    joins := []
    whereParts := [("y = ?", [SqlArg.int 5])]
    groupBys := []
    orderBys := []
    limit := none
    offset := none }

/-- C2 counterexample: with a `?` inside a projected column, the dollar
placeholder renumbering makes the count statement's WHERE clause text
(`y = $1`) differ from the input's (`y = $2`), so the clauses are not
kept byte-identical for every projection, even though the argument
lists still agree. -/
theorem toCountQuery_clause_cex :
    (toCountQuery cexQuery).toSql.2 = cexQuery.toSql.2 ∧
    cexQuery.toSql.1 = "SELECT COALESCE(x, $1) FROM t WHERE y = $2" ∧
    (toCountQuery cexQuery).toSql.1 = "SELECT COUNT(*) FROM t WHERE y = $1" ∧
    clauseTail ((toCountQuery cexQuery).toSql.1) ≠ clauseTail (cexQuery.toSql.1) := by
  decide

/-- A statement projecting two plain columns with a filtered WHERE. -/
def demoQuery2 : SelectBuilder :=
  { columns := ["id", "name"]
    fromPart := "users"
    joins := []
    whereParts := [("status = ?", [SqlArg.str "active"])]
    groupBys := []
    orderBys := []
    limit := none
    offset := none }

/-- Witness for `toCountQuery_preserves_clauses` on a two-column
projection. -/
theorem toCountQuery_preserves_clauses_witness :
    ('?' ∉ (String.intercalate ", " demoQuery2.columns).toList) ∧
    ((toCountQuery demoQuery2).toSql.2 = demoQuery2.toSql.2 ∧
     (toCountQuery demoQuery2).columns = ["COUNT(*)"] ∧
     (toCountQuery demoQuery2).renderTail = demoQuery2.renderTail ∧
     (toCountQuery demoQuery2).toSql.1 = "SELECT COUNT(*)" ++ dollarTail demoQuery2 ∧
     demoQuery2.toSql.1 =
       ("SELECT " ++ String.intercalate ", " demoQuery2.columns) ++ dollarTail demoQuery2) :=
  ⟨by decide, toCountQuery_preserves_clauses demoQuery2 (by decide)⟩
